import Mathlib

/-!
Verification of the retrieval-augmented generation (RAG) core of the AI_FTC
repository: the text chunker (`lib/rag/ingest.ts`), the lexical query engine
(`lib/rag/query.ts`), the context formatter, the initialization lifecycle and
the ingestion id derivation.  Strings are embedded as `List Char`, JS numbers
on the scoring path as `ℚ` (all values arising there are rational except the
`Math.log` calls, which are kept as an abstract function parameter).
-/

set_option maxHeartbeats 1000000
set_option maxRecDepth 4000

/- The scoring path computes in `ℚ`. Batteries marks the `Rat` field
operations `@[irreducible]`, which blocks `decide` on closed rational
facts; restore the default reducibility so that concrete witnesses
evaluate in the kernel. -/
set_option allowUnsafeReducibility true
attribute [local semireducible] Rat.add Rat.mul Rat.div Rat.sub Rat.neg Rat.inv Rat.blt

/-- Strings of the TS source are embedded as lists of characters. -/
abbrev Str : Type := List Char

/-- Coerce a Lean string literal into the embedding type. -/
def lit (s : String) : Str := s.toList

/-- `String.prototype.toLowerCase` (ASCII range, which covers the corpus). -/
def toLowerStr (s : Str) : Str := s.map Char.toLower

/-- Does `hay` start with `needle`?  (Helper for `includes` / `split`.) -/
def leadMatch : Str → Str → Bool
  | _, [] => true
  | [], _ :: _ => false
  | h :: hs, n :: ns => h == n && leadMatch hs ns

/-- `String.prototype.includes`: `needle` occurs somewhere in `hay`. -/
def strContains : Str → Str → Bool
  | [], needle => needle.isEmpty
  | h :: t, needle => leadMatch (h :: t) needle || strContains t needle

/-- Worker for the occurrence count: the `Nat` is the number of characters
still to skip because they belong to the previously matched occurrence
(matches never overlap, as with `String.prototype.split`). -/
def countOccGo (needle : Str) : Str → Nat → Nat
  | [], _ => 0
  | _ :: rest, Nat.succ k => countOccGo needle rest k
  | c :: rest, 0 =>
    if leadMatch (c :: rest) needle && !needle.isEmpty then
      1 + countOccGo needle rest (needle.length - 1)
    else
      countOccGo needle rest 0

/-- Number of leftmost non-overlapping occurrences of a non-empty `needle`. -/
def countOcc (needle : Str) (hay : Str) : Nat := countOccGo needle hay 0

/-- `hay.split(needle).length - 1`, the occurrence count used by
`keywordScore`.  The `needle = ""` case never arises there (tokens have
length ≥ 3); JS would give `hay.length - 1`. -/
def jsSplitCount (hay needle : Str) : Nat :=
  if needle.isEmpty then hay.length - 1 else countOcc needle hay

/-- Worker for the regex split: `some cur` means a segment is being built
(characters collected in reverse), `none` means the scan is inside a
separator run that has already emitted its preceding segment. -/
def splitRunsGo (p : Char → Bool) : Str → Option Str → List Str
  | [], none => [[]]
  | [], some cur => [cur.reverse]
  | c :: rest, none =>
    if p c then splitRunsGo p rest none
    else splitRunsGo p rest (some [c])
  | c :: rest, some cur =>
    if p c then cur.reverse :: splitRunsGo p rest none
    else splitRunsGo p rest (some (c :: cur))

/-- `String.prototype.split` on a regex `/(sep)+/`: segments between maximal
separator runs, keeping a leading and a trailing empty segment exactly as the
JS regex split does. -/
def splitRuns (p : Char → Bool) (s : Str) : List Str :=
  splitRunsGo p s (some [])

/-- The whitespace class of the regexes `/\s+/` (the characters that occur in
the corpus). -/
def isWs (c : Char) : Bool :=
  c == ' ' || c == '\t' || c == '\n' || c == '\r'

/-- `text.split(/\s+/)`, as used by `bm25Score` and the average-length
computation. -/
def splitWs (s : Str) : List Str := splitRuns isWs s

/-- The character class `[a-z0-9]` of the tokenizer regex. -/
def isLowerAlnum (c : Char) : Bool :=
  (decide ('a' ≤ c) && decide (c ≤ 'z')) || (decide ('0' ≤ c) && decide (c ≤ '9'))

/- ----------------------------------------------------------------------
`chunkText` (lib/rag/ingest.ts):

    export function chunkText(text, chunkSize = CHUNK_SIZE, overlap = CHUNK_OVERLAP) {
      const chunks = [];
      let start = 0;
      while (start < text.length) {
        const end = Math.min(start + chunkSize, text.length);
        chunks.push(text.slice(start, end));
        start += chunkSize - overlap;
      }
      return chunks;
    }
---------------------------------------------------------------------- -/

/-- `CHUNK_SIZE` from `lib/rag/types.ts`. -/
def CHUNK_SIZE : Nat := 1000

/-- `CHUNK_OVERLAP` from `lib/rag/types.ts`. -/
def CHUNK_OVERLAP : Nat := 200

/-- `String.prototype.slice` with the JS clamping rules (negative indices
count from the end). -/
def jsSlice (s : Str) (a b : Int) : Str :=
  let len : Int := s.length
  let lo := if a < 0 then max (len + a) 0 else min a len
  let hi := if b < 0 then max (len + b) 0 else min b len
  (s.take hi.toNat).drop lo.toNat

/-- The `while` loop of `chunkText`, with a fuel counter modelling possible
divergence: `none` means the loop has not finished within `fuel` iterations
(for every fuel, in the divergent cases). -/
def chunkLoop (text : Str) (size overlap : Int) : Nat → Int → Option (List Str)
  | 0, _ => none
  | fuel + 1, start =>
    if start < (text.length : Int) then
      (chunkLoop text size overlap fuel (start + (size - overlap))).map
        (fun rest => jsSlice text start (min (start + size) (text.length : Int)) :: rest)
    else
      some []

/-- `chunkText`: run the loop with enough fuel for every terminating case
(`text.length + 1` iterations suffice whenever `overlap < size`). -/
def chunkText (text : Str) (size overlap : Int) : Option (List Str) :=
  chunkLoop text size overlap (text.length + 1) 0

/-- Concatenation of all chunks after dropping the first `overlap` characters
of each (the "subsequent chunk" stitching rule). -/
def dropStitch (overlap : Nat) (cs : List Str) : Str :=
  (cs.map (List.drop overlap)).flatten

/-- Stitching: the first chunk whole, every later chunk after dropping its
first `overlap` characters. -/
def stitchChunks (overlap : Nat) : List Str → Str
  | [] => []
  | c :: cs => c ++ dropStitch overlap cs

/-- On natural indices, the slice taken by the loop body is
`(text.drop start).take size`. -/
theorem jsSlice_nat (t : Str) (start size : Nat) (hs : start ≤ t.length) :
    jsSlice t (start : Int) (min ((start : Int) + (size : Int)) (t.length : Int))
      = (t.drop start).take size := by
  unfold jsSlice
  have h1 : ¬ ((start : Int) < 0) := by omega
  have h2 : ¬ (min ((start : Int) + (size : Int)) (t.length : Int) < 0) := by omega
  simp only [h1, h2, if_false]
  have hlo : (min ((start : Int)) ((t.length : Int))).toNat = start := by
    omega
  have hhi : (min (min ((start : Int) + (size : Int)) (t.length : Int)) (t.length : Int)).toNat
      = min (start + size) t.length := by
    omega
  rw [hlo, hhi, List.drop_take]
  have : min (start + size) t.length - start = min size (t.length - start) := by omega
  rw [this]
  rcases Nat.le_total size (t.length - start) with h | h
  · rw [min_eq_left h]
  · rw [min_eq_right h]
    rw [List.take_eq_take]
    simp only [List.length_drop]
    omega

/-- Loop invariant: dropping `overlap` from every produced chunk and
concatenating yields exactly the text from position `start + overlap` on. -/
theorem chunkLoop_dropStitch (t : Str) (size overlap : Nat) (h : overlap < size) :
    ∀ (fuel : Nat) (start : Nat) (cs : List Str),
      chunkLoop t (size : Int) (overlap : Int) fuel (start : Int) = some cs →
      dropStitch overlap cs = t.drop (start + overlap) := by
  intro fuel
  induction fuel with
  | zero => intro start cs hc; simp [chunkLoop] at hc
  | succ n ih =>
    intro start cs hc
    unfold chunkLoop at hc
    by_cases hlt : (start : Int) < (t.length : Int)
    · rw [if_pos hlt] at hc
      rw [Option.map_eq_some'] at hc
      obtain ⟨rest, hrest, hcs⟩ := hc
      have hstart : start < t.length := by exact_mod_cast hlt
      have hcast : (start : Int) + ((size : Int) - (overlap : Int))
          = ((start + (size - overlap) : Nat) : Int) := by
        push_cast [Nat.cast_sub h.le]
        ring
      rw [hcast] at hrest
      have ihr := ih (start + (size - overlap)) rest hrest
      subst hcs
      unfold dropStitch
      simp only [List.map_cons, List.flatten_cons]
      have hslice := jsSlice_nat t start size hstart.le
      rw [hslice]
      have hdrop : List.drop overlap ((t.drop start).take size)
          = (t.drop (start + overlap)).take (size - overlap) := by
        rw [List.drop_take, List.drop_drop]
      rw [hdrop]
      have hrest' : dropStitch overlap rest = t.drop (start + overlap + (size - overlap)) := by
        rw [ihr]
        congr 1
        omega
      unfold dropStitch at hrest'
      rw [hrest']
      have : t.drop (start + overlap + (size - overlap))
          = (t.drop (start + overlap)).drop (size - overlap) := by
        rw [List.drop_drop]
      rw [this, List.take_append_drop]
    · rw [if_neg hlt] at hc
      have hge : t.length ≤ start := by
        have := not_lt.mp hlt
        exact_mod_cast this
      injection hc with hcs
      subst hcs
      simp [dropStitch, List.drop_eq_nil_of_le (by omega : t.length ≤ start + overlap)]

/-- With `overlap < size`, fuel `t.length - start + 1` completes the loop. -/
theorem chunkLoop_isSome (t : Str) (size overlap : Nat) (h : overlap < size) :
    ∀ (fuel : Nat) (start : Nat), t.length - start < fuel →
      (chunkLoop t (size : Int) (overlap : Int) fuel (start : Int)).isSome := by
  intro fuel
  induction fuel with
  | zero => intro start hs; omega
  | succ n ih =>
    intro start hs
    unfold chunkLoop
    by_cases hlt : (start : Int) < (t.length : Int)
    · rw [if_pos hlt]
      rw [Option.isSome_map']
      have hstart : start < t.length := by exact_mod_cast hlt
      have hcast : (start : Int) + ((size : Int) - (overlap : Int))
          = ((start + (size - overlap) : Nat) : Int) := by
        push_cast [Nat.cast_sub h.le]
        ring
      rw [hcast]
      exact ih (start + (size - overlap)) (by omega)
    · rw [if_neg hlt]; rfl

/-- C2 helper: the loop with the fuel used by `chunkText` succeeds. -/
theorem chunkText_isSome (t : Str) (size overlap : Nat) (h : overlap < size) :
    (chunkText t (size : Int) (overlap : Int)).isSome := by
  unfold chunkText
  have h0 : ((0 : Nat) : Int) = (0 : Int) := rfl
  rw [← h0]
  exact chunkLoop_isSome t size overlap h (t.length + 1) 0 (by omega)

/-- C2.  For every text and every `overlap < size`, `chunkText` terminates and
concatenating the first chunk with each subsequent chunk after dropping its
first `overlap` characters reconstructs the text exactly — no gaps and no
dropped trailing remainder. -/
theorem chunkText_stitches (t : Str) (size overlap : Nat) (h : overlap < size) :
    ∃ cs, chunkText t (size : Int) (overlap : Int) = some cs ∧
      stitchChunks overlap cs = t := by
  obtain ⟨cs, hcs⟩ := Option.isSome_iff_exists.mp (chunkText_isSome t size overlap h)
  refine ⟨cs, hcs, ?_⟩
  unfold chunkText at hcs
  rcases t with _ | ⟨c, t'⟩
  · simp only [chunkLoop, List.length_nil, Nat.cast_zero] at hcs
    norm_num at hcs
    subst hcs
    rfl
  · set tt : Str := c :: t' with htt
    have hlen : 0 < tt.length := by simp [htt]
    unfold chunkLoop at hcs
    rw [if_pos (by exact_mod_cast hlen)] at hcs
    rw [Option.map_eq_some'] at hcs
    obtain ⟨rest, hrest, hcs⟩ := hcs
    have hcast : (0 : Int) + ((size : Int) - (overlap : Int))
        = (((size - overlap : Nat)) : Int) := by
      push_cast [Nat.cast_sub h.le]
      ring
    rw [hcast] at hrest
    have hdst := chunkLoop_dropStitch tt size overlap h tt.length (size - overlap) rest hrest
    subst hcs
    simp only [stitchChunks]
    have hslice := jsSlice_nat tt 0 size (by omega)
    simp only [Nat.cast_zero, zero_add, List.drop_zero] at hslice
    rw [zero_add, hslice, hdst]
    have : size - overlap + overlap = size := by omega
    rw [this, List.take_append_drop]

/-- C2 witness: `chunkText "abcdef" 3 1` terminates and stitches back to
`"abcdef"`. -/
theorem chunkText_stitches_witness :
    (1 : Nat) < 3 ∧
      ∃ cs, chunkText (lit "abcdef") ((3 : Nat) : Int) ((1 : Nat) : Int) = some cs ∧
        stitchChunks 1 cs = lit "abcdef" :=
  ⟨by decide, chunkText_stitches (lit "abcdef") 3 1 (by decide)⟩

/-- C3.  Whenever `size ≤ overlap` and the text is non-empty, the `while`
loop of `chunkText` never terminates: for every fuel bound the loop is still
running (there is no infinite-loop guard in the code). -/
theorem chunkLoop_diverges (t : Str) (size overlap : Int)
    (hso : size ≤ overlap) (ht : t ≠ []) :
    ∀ (fuel : Nat) (start : Int), start ≤ 0 →
      chunkLoop t size overlap fuel start = none := by
  intro fuel
  induction fuel with
  | zero => intro start _; rfl
  | succ n ih =>
    intro start hs
    unfold chunkLoop
    have hlen : (0 : Int) < (t.length : Int) := by
      have : t.length ≠ 0 := by
        intro hx
        exact ht (List.length_eq_zero.mp hx)
      omega
    rw [if_pos (by omega)]
    rw [ih (start + (size - overlap)) (by omega)]
    rfl

/-- C3 witness: at text `"ab"`, `chunkSize = 1`, `overlap = 1` the loop runs
forever (every fuel returns `none`), exactly the divergent input family the
claim says must be guarded against. -/
theorem chunkLoop_diverges_witness :
    ((1 : Int) ≤ 1 ∧ lit "ab" ≠ []) ∧
      ∀ fuel : Nat, chunkLoop (lit "ab") 1 1 fuel 0 = none :=
  ⟨⟨by decide, by decide⟩,
    fun fuel => chunkLoop_diverges (lit "ab") 1 1 (by decide) (by decide) fuel 0 (by decide)⟩

/- ----------------------------------------------------------------------
Data model (lib/rag/types.ts, lib/types.ts).  The `lastUpdated : Date`
field is dropped: no claim mentions it and wall-clock time has no shallow
embedding.
---------------------------------------------------------------------- -/

/-- `FTCDocument` (lib/types.ts). -/
structure FTCDocument where
  id : Str
  title : Str
  content : Str
  sourceURL : Str
  seasonTag : Str
  sourcePriority : Nat
deriving DecidableEq

/-- The metadata record carried by every `DocumentChunk`. -/
structure ChunkMetadata where
  title : Str
  sourceURL : Str
  seasonTag : Str
  sourcePriority : Nat
  chunkIndex : Nat
  totalChunks : Nat
deriving DecidableEq

/-- `DocumentChunk` (lib/rag/types.ts). -/
structure DocumentChunk where
  id : Str
  documentId : Str
  content : Str
  embedding : Option (List ℚ)
  metadata : ChunkMetadata
deriving DecidableEq

/-- `RAGQuery`: the query text and the optional `topK`. -/
structure RAGQuery where
  query : Str
  topK : Option Nat
deriving DecidableEq

/-- `RAGResult`: parallel document and score lists. -/
structure RAGResult where
  documents : List FTCDocument
  scores : List ℚ
deriving DecidableEq

/-- The module-level mutable stores of `lib/rag/query.ts`, as one state
record: `documentStore`, `chunkStore`, `isInitialized`, `useEmbeddings`. -/
structure RAGState where
  documentStore : List FTCDocument
  chunkStore : List DocumentChunk
  isInitialized : Bool
  useEmbeddings : Bool
deriving DecidableEq

/-- `DEFAULT_TOP_K` (lib/rag/types.ts line 183). -/
def DEFAULT_TOP_K : Nat := 10

/-- `RELEVANCE_THRESHOLD` (lib/rag/types.ts line 184). -/
def RELEVANCE_THRESHOLD : ℚ := 0

/-- Modelled from the spec: `lib/rag/query.ts` imports `SOURCE_WEIGHT` from
`./types`, but the provided `lib/rag/types.ts` does not contain that table.
The spec fixes the shape: every priority tier 1–9 maps to exactly one numeric
relevance weight, monotonically non-increasing as the tier number increases,
with tier 1 ("SDK") at weight 2.0 and tier 5 ("Limelight") at weight 1.0 in
its end-to-end scenario. -/
def SOURCE_WEIGHT : Nat → Option ℚ := fun p =>
  if p = 1 then some 2
  else if p = 2 then some (7/4)
  else if p = 3 then some (3/2)
  else if p = 4 then some (5/4)
  else if p = 5 then some 1
  else if p = 6 then some 1
  else if p = 7 then some 1
  else if p = 8 then some 1
  else if p = 9 then some 1
  else none

/-- `applyPriorityWeighting` (lib/rag/query.ts lines 194–197):
`const weight = SOURCE_WEIGHT[priority] ?? 1; return score * weight;`. -/
def applyPriorityWeighting (score : ℚ) (priority : Nat) : ℚ :=
  score * ((SOURCE_WEIGHT priority).getD 1)

/-- The tier weight after the `?? 1` default. -/
def tierWeight (priority : Nat) : ℚ := (SOURCE_WEIGHT priority).getD 1

/-- Tiers 5 and above all carry the default-sized weight 1. -/
theorem tierWeight_of_five_le (p : Nat) (h : 5 ≤ p) : tierWeight p = 1 := by
  unfold tierWeight SOURCE_WEIGHT
  split_ifs with h1 h2 h3 h4 <;> first | omega | rfl

/-- The spec invariant on the modelled table: weights are monotonically
non-increasing as the tier number increases (over the tier enumeration,
which starts at 1). -/
theorem tierWeight_antitone (p q : Nat) (hp : 1 ≤ p) (hpq : p ≤ q) :
    tierWeight q ≤ tierWeight p := by
  rcases Nat.lt_or_ge p 5 with h5 | h5
  · have hq1 : tierWeight 1 = 2 := by norm_num [tierWeight, SOURCE_WEIGHT]
    have hq2 : tierWeight 2 = 7/4 := by norm_num [tierWeight, SOURCE_WEIGHT]
    have hq3 : tierWeight 3 = 3/2 := by norm_num [tierWeight, SOURCE_WEIGHT]
    have hq4 : tierWeight 4 = 5/4 := by norm_num [tierWeight, SOURCE_WEIGHT]
    rcases Nat.lt_or_ge q 5 with hq5 | hq5
    · interval_cases p <;> interval_cases q <;>
        simp_all <;> norm_num
    · rw [tierWeight_of_five_le q hq5]
      interval_cases p <;> simp_all <;> norm_num
  · rw [tierWeight_of_five_le p h5, tierWeight_of_five_le q (by omega)]

/-- Every tier weight is positive (authoritative tiers are weighted higher,
none is zeroed out). -/
theorem tierWeight_pos (p : Nat) : 0 < tierWeight p := by
  unfold tierWeight SOURCE_WEIGHT
  split_ifs <;> norm_num

/- ----------------------------------------------------------------------
Lexical scoring (lib/rag/query.ts lines 228–265).
---------------------------------------------------------------------- -/

/-- Query tokenization (lines 228–231):
`query.toLowerCase().split(/[^a-z0-9]+/).filter(token => token.length > 2)`. -/
def queryTokens (qs : Str) : List Str :=
  ((splitRuns (fun c => !(isLowerAlnum c)) (toLowerStr qs)).filter
    (fun t => 2 < t.length))

/-- The `keywordWeights` map (lines 239–242): token → occurrence count,
insertion ordered, `set(token, (get(token) || 0) + 1)`. -/
def bumpWeight (m : List (Str × Nat)) (tok : Str) : List (Str × Nat) :=
  if m.any (fun e => e.1 == tok) then
    m.map (fun e => if e.1 == tok then (e.1, e.2 + 1) else e)
  else
    m ++ [(tok, 1)]

/-- Fold the token list through the counting map. -/
def keywordWeights (toks : List Str) : List (Str × Nat) :=
  toks.foldl bumpWeight []

/-- `vendorKeywords` (lines 233–237), keyed by `SourcePriority`:
LIMELIGHT = 5, ROADRUNNER = 3, FTCLIB = 4. -/
def vendorKeywords : Nat → List Str := fun p =>
  if p = 5 then [lit "limelight", lit "llresult", lit "limelight3a", lit "detectorresult"]
  else if p = 3 then [lit "roadrunner", lit "trajectory", lit "driveconstants"]
  else if p = 4 then [lit "ftclib", lit "commandscheduler", lit "subsystem"]
  else []

/-- The vendor-keyword bonus inside `keywordScore` (lines 256–262): +10 for
every keyword of the chunk priority tier contained in the lowered text. -/
def vendorBonus (lower : Str) (priority : Nat) : ℚ :=
  (((vendorKeywords priority).filter (fun kw => strContains lower kw)).length : ℚ) * 10

/-- The token-occurrence part of `keywordScore` (the `keywordWeights.forEach`
loop, lines 248–254): `occurrences * (weight + 1)` for every token of length
≥ 3 occurring in the lowered text. -/
def keywordTokenPart (kw : List (Str × Nat)) (lower : Str) : ℚ :=
  (kw.map fun tw =>
    if tw.1.length < 3 then 0
    else if 0 < jsSplitCount lower tw.1 then
      ((jsSplitCount lower tw.1 : ℚ)) * ((tw.2 : ℚ) + 1)
    else 0).sum

/-- `keywordScore` (lines 244–265): weighted token occurrences plus the
vendor-keyword bonus of the chunk priority tier. -/
def keywordScore (kw : List (Str × Nat)) (text : Str) (priority : Nat) : ℚ :=
  keywordTokenPart kw (toLowerStr text) + vendorBonus (toLowerStr text) priority

/-- `k1` of `bm25Score` (line 23). -/
def BM25_K1 : ℚ := 3/2

/-- `b` of `bm25Score` (line 24). -/
def BM25_B : ℚ := 3/4

/-- `termFreq` of `bm25Score` (line 33): document terms sharing a substring
with the query term, in either direction. -/
def bm25TermFreq (docTerms : List Str) (term : Str) : Nat :=
  (docTerms.filter fun t => strContains t term || strContains term t).length

/-- One query term's contribution to `bm25Score` (lines 32–44). -/
def bm25Term (jsLog : ℚ → ℚ) (docTerms : List Str) (avgDocLength : ℚ) (term : Str) : ℚ :=
  if bm25TermFreq docTerms term = 0 then 0
  else
    jsLog (1 + 1 / ((bm25TermFreq docTerms term : ℚ) + 1))
      * ((bm25TermFreq docTerms term : ℚ) * (BM25_K1 + 1)
        / ((bm25TermFreq docTerms term : ℚ)
          + BM25_K1 * (1 - BM25_B + BM25_B * ((docTerms.length : ℚ) / avgDocLength))))

/-- `bm25Score` (lines 22–47).  `Math.log` is kept abstract as the function
parameter `jsLog` (its values are irrational); every claim either fixes it
concretely or assumes only that logarithms of arguments ≥ 1 are ≥ 0. -/
def bm25Score (jsLog : ℚ → ℚ) (query document : Str) (avgDocLength : ℚ) : ℚ :=
  ((splitWs (toLowerStr query)).map
    (bm25Term jsLog (splitWs (toLowerStr document)) avgDocLength)).sum

/-- The raw lexical score of one chunk before weighting (lines 285–288):
keyword score, BM25 fallback when it is zero. -/
def rawLexScore (jsLog : ℚ → ℚ) (qs : Str) (avgDocLength : ℚ)
    (text : Str) (priority : Nat) : ℚ :=
  if keywordScore (keywordWeights (queryTokens qs)) text priority = 0 then
    bm25Score jsLog qs text avgDocLength
  else
    keywordScore (keywordWeights (queryTokens qs)) text priority

/-- One chunk's score on the lexical (BM25) path of `queryRAG`
(lines 284–291): keyword score, BM25 fallback when it is zero, then
priority weighting. -/
def scoreChunkBM25 (jsLog : ℚ → ℚ) (qs : Str) (avgDocLength : ℚ)
    (text : Str) (priority : Nat) : ℚ :=
  applyPriorityWeighting (rawLexScore jsLog qs avgDocLength text priority) priority

/-- The keyword score is a sum of non-negative contributions. -/
theorem keywordScore_nonneg (kw : List (Str × Nat)) (text : Str) (priority : Nat) :
    0 ≤ keywordScore kw text priority := by
  unfold keywordScore
  have h1 : 0 ≤ keywordTokenPart kw (toLowerStr text) := by
    apply List.sum_nonneg
    intro x hx
    simp only [List.mem_map] at hx
    obtain ⟨tw, _, rfl⟩ := hx
    split_ifs <;> positivity
  have h2 : 0 ≤ vendorBonus (toLowerStr text) priority := by
    unfold vendorBonus
    positivity
  linarith

/-- `bm25Score` is non-negative whenever the abstract logarithm is
non-negative on arguments ≥ 1 (true of `Math.log`) and the average document
length is non-negative. -/
theorem bm25Score_nonneg (jsLog : ℚ → ℚ) (hlog : ∀ x, 1 ≤ x → 0 ≤ jsLog x)
    (query document : Str) (avg : ℚ) (havg : 0 ≤ avg) :
    0 ≤ bm25Score jsLog query document avg := by
  unfold bm25Score
  apply List.sum_nonneg
  intro x hx
  simp only [List.mem_map] at hx
  obtain ⟨term, _, rfl⟩ := hx
  unfold bm25Term
  split_ifs with h
  · exact le_refl 0
  · set docTerms := splitWs (toLowerStr document) with hdt
    have htf : (0 : ℚ) ≤ (bm25TermFreq docTerms term : ℚ) := by positivity
    have hdl : (0 : ℚ) ≤ (docTerms.length : ℚ) / avg :=
      div_nonneg (by positivity) havg
    apply mul_nonneg
    · apply hlog
      have : 0 ≤ 1 / ((bm25TermFreq docTerms term : ℚ) + 1) := by positivity
      linarith
    · apply div_nonneg
      · have : (0 : ℚ) ≤ BM25_K1 + 1 := by norm_num [BM25_K1]
        positivity
      · have hb : BM25_K1 * (1 - BM25_B + BM25_B * ((docTerms.length : ℚ) / avg))
            = 3/8 + (9/8) * ((docTerms.length : ℚ) / avg) := by
          norm_num [BM25_K1, BM25_B]
          ring
        rw [hb]
        linarith

/-- C1 counterexample.  Query `"zzzz"`, chunk text `"trajectory"`: the tier-1
chunk scores 0 (no keyword hit, BM25 fallback 0) while the *identical* text
tagged tier 3 collects the ROADRUNNER vendor-keyword bonus inside
`keywordScore` and ends with a strictly higher weighted score — the claimed
`score(tier 1) ≥ score(tier 3)` fails. -/
theorem scoreChunkBM25_not_monotone :
    ¬ (scoreChunkBM25 (fun _ => 0) (lit "zzzz") 1 (lit "trajectory") 3
        ≤ scoreChunkBM25 (fun _ => 0) (lit "zzzz") 1 (lit "trajectory") 1) := by
  decide

/-- C1 (amended).  For two chunks with identical lexical content whose text
triggers the same vendor-keyword bonus for both tiers (in particular when it
contains no vendor keyword of either tier), the raw lexical scores coincide
and the per-tier weighting is monotone: the chunk of the numerically lower
(more authoritative) tier receives a final score ≥ the other chunk's, for
every query, every average document length ≥ 0, and every logarithm that is
non-negative on arguments ≥ 1. -/
theorem scoreChunkBM25_priority_monotone (jsLog : ℚ → ℚ)
    (hlog : ∀ x, 1 ≤ x → 0 ≤ jsLog x) (qs text : Str) (avg : ℚ) (havg : 0 ≤ avg)
    (p q : Nat) (hp : 1 ≤ p) (hpq : p ≤ q)
    (hbonus : vendorBonus (toLowerStr text) p = vendorBonus (toLowerStr text) q) :
    scoreChunkBM25 jsLog qs avg text q ≤ scoreChunkBM25 jsLog qs avg text p := by
  have hks : keywordScore (keywordWeights (queryTokens qs)) text p
      = keywordScore (keywordWeights (queryTokens qs)) text q := by
    unfold keywordScore
    rw [hbonus]
  have hrs : rawLexScore jsLog qs avg text p = rawLexScore jsLog qs avg text q := by
    unfold rawLexScore
    rw [hks]
  have hraw_nonneg : 0 ≤ rawLexScore jsLog qs avg text p := by
    unfold rawLexScore
    split_ifs with h0
    · exact bm25Score_nonneg jsLog hlog qs text avg havg
    · exact keywordScore_nonneg (keywordWeights (queryTokens qs)) text p
  unfold scoreChunkBM25 applyPriorityWeighting
  rw [← hrs]
  have hw := tierWeight_antitone p q hp hpq
  unfold tierWeight at hw
  exact mul_le_mul_of_nonneg_left hw hraw_nonneg

/-- C1 witness for the amended monotonicity: tiers 1 ≤ 2, text `"hello"`
(equal — zero — vendor bonus on both tiers), query `"abc"`. -/
theorem scoreChunkBM25_priority_monotone_witness :
    ((0 : ℚ) ≤ 1 ∧ (1 : Nat) ≤ 1 ∧ (1 : Nat) ≤ 2 ∧
      vendorBonus (toLowerStr (lit "hello")) 1 = vendorBonus (toLowerStr (lit "hello")) 2) ∧
      scoreChunkBM25 (fun _ => 0) (lit "abc") 1 (lit "hello") 2
        ≤ scoreChunkBM25 (fun _ => 0) (lit "abc") 1 (lit "hello") 1 :=
  ⟨⟨by decide, by decide, by decide, by decide⟩,
    scoreChunkBM25_priority_monotone (fun _ => 0) (fun _ _ => le_refl 0)
      (lit "abc") (lit "hello") 1 (by decide) 1 2 (by decide) (by decide) (by decide)⟩

/- ----------------------------------------------------------------------
`queryRAG` (lib/rag/query.ts lines 202–348), staged.
---------------------------------------------------------------------- -/

/-- The effective `topK` (line 208): `query.topK || DEFAULT_TOP_K`, JS
falsiness mapping both an absent and a zero `topK` to the default. -/
def effTopK (q : RAGQuery) : Nat :=
  match q.topK with
  | none => DEFAULT_TOP_K
  | some k => if k = 0 then DEFAULT_TOP_K else k

/-- The vendor-hint regexes (lines 210–216): `/limelight/i`,
`/road ?runner/i`, `/ftc ?lib/i`, tested in that order against the query. -/
def vendorHint (qs : Str) : Option Nat :=
  if strContains (toLowerStr qs) (lit "limelight") then some 5
  else if strContains (toLowerStr qs) (lit "roadrunner")
      || strContains (toLowerStr qs) (lit "road runner") then some 3
  else if strContains (toLowerStr qs) (lit "ftclib")
      || strContains (toLowerStr qs) (lit "ftc lib") then some 4
  else none

/-- Candidate-pool restriction (lines 218–226): restrict to the hinted
vendor tier when that sub-pool is non-empty. -/
def chunkPool (s : RAGState) (qs : Str) : List DocumentChunk :=
  match vendorHint qs with
  | none => s.chunkStore
  | some tier =>
    if 0 < (s.chunkStore.filter fun c => c.metadata.sourcePriority == tier).length then
      s.chunkStore.filter fun c => c.metadata.sourcePriority == tier
    else
      s.chunkStore

/-- `avgDocLength` of the BM25 branch (line 282). -/
def avgPoolLength (pool : List DocumentChunk) : ℚ :=
  (pool.map fun c => ((splitWs c.content).length : ℚ)).sum / (pool.length : ℚ)

/-- `scoredChunks` (lines 267–292).  The embeddings branch scores with
`cosineSimilarity(queryEmbedding, chunk.embedding)`, which involves the
external embedding service and a square root; it is abstracted as the
function parameter `semScore`.  The BM25 branch is fully concrete. -/
def scoredChunks (semScore : DocumentChunk → ℚ) (jsLog : ℚ → ℚ)
    (s : RAGState) (q : RAGQuery) : List (DocumentChunk × ℚ) :=
  if s.useEmbeddings then
    ((chunkPool s q.query).filter fun c => c.embedding.isSome).map
      fun c => (c, applyPriorityWeighting (semScore c) c.metadata.sourcePriority)
  else
    (chunkPool s q.query).map
      fun c => (c, scoreChunkBM25 jsLog q.query (avgPoolLength (chunkPool s q.query))
        c.content c.metadata.sourcePriority)

/-- One step of the stable descending insertion: an element is placed after
every strictly higher score and before equal ones, matching the stable JS
`sort((a, b) => b.score - a.score)`. -/
def insertDesc {α : Type} (x : α × ℚ) : List (α × ℚ) → List (α × ℚ)
  | [] => [x]
  | y :: ys => if x.2 < y.2 then y :: insertDesc x ys else x :: y :: ys

/-- Stable sort by score, descending (lines 295 and 316). -/
def sortDesc {α : Type} (l : List (α × ℚ)) : List (α × ℚ) :=
  l.foldr insertDesc []

/-- `topChunks` (lines 296–298): sort, keep positive scores, take `topK`. -/
def topChunks (semScore : DocumentChunk → ℚ) (jsLog : ℚ → ℚ)
    (s : RAGState) (q : RAGQuery) : List (DocumentChunk × ℚ) :=
  (((sortDesc (scoredChunks semScore jsLog s q)).filter
      fun it => decide (0 < it.2)).take (effTopK q))

/-- `docMap.set` with JS `Map` semantics: an existing key keeps its position,
a new key is appended. -/
def mapSet {β : Type} (m : List (Str × β)) (k : Str) (v : β) : List (Str × β) :=
  if m.any (fun e => e.1 == k) then
    m.map fun e => if e.1 == k then (k, v) else e
  else
    m ++ [(k, v)]

/-- One iteration of the chunk-to-document aggregation loop (lines 303–313):
resolve the chunk's document, keep the best score per document id. -/
def docMapStep (store : List FTCDocument) (m : List (Str × (FTCDocument × ℚ)))
    (item : DocumentChunk × ℚ) : List (Str × (FTCDocument × ℚ)) :=
  match store.find? (fun d => d.id == item.1.documentId) with
  | none => m
  | some doc =>
    match m.find? (fun e => e.1 == item.1.documentId) with
    | none => mapSet m item.1.documentId (doc, item.2)
    | some e =>
      if e.2.2 < item.2 then mapSet m item.1.documentId (doc, item.2) else m

/-- The whole `docMap` fold over `topChunks`. -/
def docAggregate (store : List FTCDocument) (items : List (DocumentChunk × ℚ)) :
    List (Str × (FTCDocument × ℚ)) :=
  items.foldl (docMapStep store) []

/-- `results` before the vendor post-filter (lines 315–316): the aggregated
document/score pairs, sorted by score descending. -/
def rankedDocs (semScore : DocumentChunk → ℚ) (jsLog : ℚ → ℚ)
    (s : RAGState) (q : RAGQuery) : List (FTCDocument × ℚ) :=
  sortDesc ((docAggregate s.documentStore
    (topChunks semScore jsLog s q)).map (·.2))

/-- The vendor fallback (lines 320–330): every chunk of the vendor tier,
mapped to its document with score 1, unresolvable ids dropped, first `k`
kept. -/
def vendorFallback (s : RAGState) (tier : Nat) (k : Nat) : List (FTCDocument × ℚ) :=
  (((s.chunkStore.filter fun c => c.metadata.sourcePriority == tier).filterMap
      fun c => (s.documentStore.find? fun d => d.id == c.documentId).map
        fun d => (d, (1 : ℚ))).take k)

/-- The vendor post-filter with fallback (lines 318–331). -/
def finalResults (semScore : DocumentChunk → ℚ) (jsLog : ℚ → ℚ)
    (s : RAGState) (q : RAGQuery) : List (FTCDocument × ℚ) :=
  match vendorHint q.query with
  | none => rankedDocs semScore jsLog s q
  | some tier =>
    if ((rankedDocs semScore jsLog s q).filter
        fun r => r.1.sourcePriority == tier).isEmpty then
      vendorFallback s tier (effTopK q)
    else
      (rankedDocs semScore jsLog s q).filter fun r => r.1.sourcePriority == tier

/-- `queryRAG` (lines 202–348): empty result on an uninitialized index,
otherwise the staged pipeline above, returned as parallel lists. -/
def queryRAG (semScore : DocumentChunk → ℚ) (jsLog : ℚ → ℚ)
    (s : RAGState) (q : RAGQuery) : RAGResult :=
  if s.isInitialized = false then
    { documents := [], scores := [] }
  else
    { documents := (finalResults semScore jsLog s q).map (·.1),
      scores := (finalResults semScore jsLog s q).map (·.2) }

/-- Insertion grows the sorted list by exactly one element. -/
theorem length_insertDesc {α : Type} (x : α × ℚ) (l : List (α × ℚ)) :
    (insertDesc x l).length = l.length + 1 := by
  induction l with
  | nil => rfl
  | cons y ys ih =>
    unfold insertDesc
    split_ifs
    · simp only [List.length_cons, ih]
    · simp only [List.length_cons]

/-- The stable sort preserves length. -/
theorem length_sortDesc {α : Type} (l : List (α × ℚ)) :
    (sortDesc l).length = l.length := by
  induction l with
  | nil => rfl
  | cons x xs ih =>
    unfold sortDesc at ih ⊢
    simp only [List.foldr_cons, length_insertDesc, ih, List.length_cons]

/-- Membership in an insertion. -/
theorem mem_insertDesc {α : Type} (a x : α × ℚ) (l : List (α × ℚ)) :
    a ∈ insertDesc x l ↔ a = x ∨ a ∈ l := by
  induction l with
  | nil => simp [insertDesc]
  | cons y ys ih =>
    unfold insertDesc
    split_ifs
    · simp only [List.mem_cons, ih]
      tauto
    · simp only [List.mem_cons]

/-- The stable sort is a permutation in the weak sense needed here:
same members. -/
theorem mem_sortDesc {α : Type} (a : α × ℚ) (l : List (α × ℚ)) :
    a ∈ sortDesc l ↔ a ∈ l := by
  induction l with
  | nil => simp [sortDesc]
  | cons x xs ih =>
    unfold sortDesc at ih ⊢
    simp only [List.foldr_cons, mem_insertDesc, List.mem_cons, ih]

/-- `mapSet` grows the map by at most one entry. -/
theorem length_mapSet {β : Type} (m : List (Str × β)) (k : Str) (v : β) :
    (mapSet m k v).length ≤ m.length + 1 := by
  unfold mapSet
  split_ifs
  · simp
  · simp

/-- One aggregation step grows the document map by at most one entry. -/
theorem length_docMapStep (store : List FTCDocument)
    (m : List (Str × (FTCDocument × ℚ))) (item : DocumentChunk × ℚ) :
    (docMapStep store m item).length ≤ m.length + 1 := by
  rcases hfind : store.find? (fun d => d.id == item.1.documentId) with _ | doc
  · simp [docMapStep, hfind]
  · rcases hm : m.find? (fun e => e.1 == item.1.documentId) with _ | e
    · simp only [docMapStep, hfind, hm]
      exact length_mapSet m item.1.documentId (doc, item.2)
    · simp only [docMapStep, hfind, hm]
      split_ifs
      · exact length_mapSet m item.1.documentId (doc, item.2)
      · omega

/-- The aggregation fold produces at most one document entry per chunk. -/
theorem length_docAggregate_fold (store : List FTCDocument) :
    ∀ (items : List (DocumentChunk × ℚ)) (m : List (Str × (FTCDocument × ℚ))),
      (items.foldl (docMapStep store) m).length ≤ m.length + items.length := by
  intro items
  induction items with
  | nil => intro m; simp
  | cons i is ih =>
    intro m
    rw [List.foldl_cons]
    calc (is.foldl (docMapStep store) (docMapStep store m i)).length
        ≤ (docMapStep store m i).length + is.length := ih _
      _ ≤ m.length + 1 + is.length := by
          have := length_docMapStep store m i
          omega
      _ = m.length + (i :: is).length := by simp [List.length_cons]; omega

/-- `docAggregate` yields at most as many documents as chunks. -/
theorem length_docAggregate (store : List FTCDocument)
    (items : List (DocumentChunk × ℚ)) :
    (docAggregate store items).length ≤ items.length := by
  have := length_docAggregate_fold store items []
  simpa [docAggregate] using this

/-- The effective `topK` is always positive: `0 || DEFAULT_TOP_K` is the
default, not zero. -/
theorem effTopK_pos (q : RAGQuery) : 1 ≤ effTopK q := by
  rcases hk : q.topK with _ | k
  · simp [effTopK, hk, DEFAULT_TOP_K]
  · simp only [effTopK, hk]
    split_ifs with h
    · norm_num [DEFAULT_TOP_K]
    · omega

/-- The ranked list before the vendor post-filter never exceeds `topK`. -/
theorem length_rankedDocs_le (semScore : DocumentChunk → ℚ) (jsLog : ℚ → ℚ)
    (s : RAGState) (q : RAGQuery) :
    (rankedDocs semScore jsLog s q).length ≤ effTopK q := by
  unfold rankedDocs
  rw [length_sortDesc, List.length_map]
  calc (docAggregate s.documentStore (topChunks semScore jsLog s q)).length
      ≤ (topChunks semScore jsLog s q).length :=
        length_docAggregate _ _
    _ ≤ effTopK q := by
        unfold topChunks
        exact List.length_take_le _ _

/-- A sample vendor document (tier 5, LIMELIGHT) whose content shares no
token with the sample queries below. -/
def limeDoc : FTCDocument :=
  { id := lit "doc-lime", title := lit "t", content := lit "xyz",
    sourceURL := lit "u", seasonTag := lit "s", sourcePriority := 5 }

/-- The metadata of `limeDoc`'s single chunk. -/
def limeMeta : ChunkMetadata :=
  { title := lit "t", sourceURL := lit "u", seasonTag := lit "s",
    sourcePriority := 5, chunkIndex := 0, totalChunks := 1 }

/-- The single chunk of `limeDoc`. -/
def limeChunk : DocumentChunk :=
  { id := lit "doc-lime-chunk-0", documentId := lit "doc-lime",
    content := lit "xyz", embedding := none, metadata := limeMeta }

/-- An initialized BM25-mode state holding only the Limelight document. -/
def limeState : RAGState :=
  { documentStore := [limeDoc], chunkStore := [limeChunk],
    isInitialized := true, useEmbeddings := false }

/-- A vendor-specific query whose tokens miss every chunk. -/
def limeQuery : RAGQuery := { query := lit "limelight", topK := none }

/-- The result of `queryRAG` never exceeds the effective `topK`. -/
theorem queryRAG_length_le (semScore : DocumentChunk → ℚ) (jsLog : ℚ → ℚ)
    (s : RAGState) (q : RAGQuery) :
    (queryRAG semScore jsLog s q).documents.length ≤ effTopK q := by
  unfold queryRAG
  split_ifs with h
  · simp
  · simp only [List.length_map]
    rcases hv : vendorHint q.query with _ | tier
    · simp only [finalResults, hv]
      exact length_rankedDocs_le semScore jsLog s q
    · simp only [finalResults, hv]
      split_ifs with hempty
      · unfold vendorFallback
        exact List.length_take_le _ _
      · calc ((rankedDocs semScore jsLog s q).filter
            fun r => r.1.sourcePriority == tier).length
            ≤ (rankedDocs semScore jsLog s q).length := List.length_filter_le _ _
          _ ≤ effTopK q := length_rankedDocs_le semScore jsLog s q

/-- A never-initialized state with nothing ingested. -/
def emptyState : RAGState :=
  { documentStore := [], chunkStore := [], isInitialized := false,
    useEmbeddings := false }

/-- An initialized state whose chunk store is empty. -/
def emptyInitState : RAGState :=
  { documentStore := [], chunkStore := [], isInitialized := true,
    useEmbeddings := false }

/-- A query that names no vendor and matches nothing. -/
def helloQuery : RAGQuery := { query := lit "hello", topK := none }

/-- C8.  If the index is uninitialized, or initialized with an empty chunk
store, `queryRAG` returns the empty result `{documents: [], scores: []}` on
every query (it is a total function on this path — no exception is
modelled because none can be raised there). -/
theorem queryRAG_uninit_or_empty (semScore : DocumentChunk → ℚ) (jsLog : ℚ → ℚ)
    (s : RAGState) (q : RAGQuery)
    (h : s.isInitialized = false ∨ s.chunkStore = []) :
    queryRAG semScore jsLog s q = { documents := [], scores := [] } := by
  unfold queryRAG
  rcases h with h | h
  · rw [if_pos h]
  · by_cases hinit : s.isInitialized = false
    · rw [if_pos hinit]
    · rw [if_neg hinit]
      have hpool : chunkPool s q.query = [] := by
        unfold chunkPool
        rcases hv : vendorHint q.query with _ | tier
        · exact h
        · rw [h]
          simp
      have hscored : scoredChunks semScore jsLog s q = [] := by
        unfold scoredChunks
        rw [hpool]
        split_ifs <;> simp
      have htop : topChunks semScore jsLog s q = [] := by
        simp [topChunks, hscored, sortDesc]
      have hranked : rankedDocs semScore jsLog s q = [] := by
        simp [rankedDocs, docAggregate, htop, sortDesc]
      have hfr : finalResults semScore jsLog s q = [] := by
        rcases hv : vendorHint q.query with _ | tier
        · simp [finalResults, hv, hranked]
        · simp [finalResults, hv, hranked, vendorFallback, h]
      simp [hfr]

/-- C8 witness: a query against the uninitialized `emptyState`, and one
against the initialized-but-empty `emptyInitState`, both return the empty
result. -/
theorem queryRAG_uninit_or_empty_witness :
    (emptyState.isInitialized = false ∨ emptyState.chunkStore = []) ∧
      queryRAG (fun _ => 0) (fun _ => 0) emptyState helloQuery
        = { documents := [], scores := [] } ∧
      (emptyInitState.isInitialized = false ∨ emptyInitState.chunkStore = []) ∧
      queryRAG (fun _ => 0) (fun _ => 0) emptyInitState helloQuery
        = { documents := [], scores := [] } :=
  ⟨Or.inl rfl,
    queryRAG_uninit_or_empty (fun _ => 0) (fun _ => 0) emptyState helloQuery (Or.inl rfl),
    Or.inr rfl,
    queryRAG_uninit_or_empty (fun _ => 0) (fun _ => 0) emptyInitState helloQuery (Or.inr rfl)⟩

/-- C5 counterexample.  `limeState` is initialized and non-empty, every
pooled chunk's weighted score is zero under the query `"limelight"` — yet
`queryRAG` does not return the empty result: the vendor fallback hands back
the Limelight document with score 1. -/
theorem queryRAG_allZero_counterexample :
    limeState.isInitialized = true ∧ limeState.chunkStore ≠ [] ∧
      (∀ p ∈ scoredChunks (fun _ => 0) (fun _ => 0) limeState limeQuery, p.2 = 0) ∧
      queryRAG (fun _ => 0) (fun _ => 0) limeState limeQuery
        ≠ { documents := [], scores := [] } := by
  decide

/-- C5 (amended).  Against an initialized, non-empty index, if every pooled
chunk's weighted score is zero *and the query does not engage the vendor
fallback* (it names no vendor, or the named vendor has no chunks in the
store), then `queryRAG` returns the empty result rather than padding
`topK` with irrelevant documents. -/
theorem queryRAG_allZero_empty (semScore : DocumentChunk → ℚ) (jsLog : ℚ → ℚ)
    (s : RAGState) (q : RAGQuery)
    (hinit : s.isInitialized = true)
    (hzero : ∀ p ∈ scoredChunks semScore jsLog s q, p.2 = 0)
    (hvend : ∀ tier, vendorHint q.query = some tier →
      s.chunkStore.filter (fun c => c.metadata.sourcePriority == tier) = []) :
    queryRAG semScore jsLog s q = { documents := [], scores := [] } := by
  have htop : topChunks semScore jsLog s q = [] := by
    unfold topChunks
    have hf : (sortDesc (scoredChunks semScore jsLog s q)).filter
        (fun it => decide (0 < it.2)) = [] := by
      rw [List.filter_eq_nil_iff]
      intro a ha
      have := hzero a ((mem_sortDesc a _).mp ha)
      simp [this]
    rw [hf]
    simp
  have hranked : rankedDocs semScore jsLog s q = [] := by
    simp [rankedDocs, docAggregate, htop, sortDesc]
  unfold queryRAG
  rw [if_neg (by simp [hinit])]
  have hfr : finalResults semScore jsLog s q = [] := by
    rcases hv : vendorHint q.query with _ | tier
    · simp [finalResults, hv, hranked]
    · simp [finalResults, hv, hranked, vendorFallback, hvend tier hv]
  simp [hfr]

/-- C5 witness for the amended claim: the query `"hello"` (no vendor hint)
scores zero on every chunk of `limeState` and gets the empty result. -/
theorem queryRAG_allZero_empty_witness :
    (limeState.isInitialized = true ∧
      ∀ p ∈ scoredChunks (fun _ => 0) (fun _ => 0) limeState helloQuery, p.2 = 0) ∧
      queryRAG (fun _ => 0) (fun _ => 0) limeState helloQuery
        = { documents := [], scores := [] } :=
  ⟨⟨rfl, by decide⟩,
    queryRAG_allZero_empty (fun _ => 0) (fun _ => 0) limeState helloQuery rfl
      (by decide)
      (by
        intro tier h
        rw [show vendorHint helloQuery.query = none from by decide] at h
        exact Option.noConfusion h)⟩

/-- C4.  A vendor-hinted query against an initialized store containing at
least one chunk of that vendor tier whose document id resolves: when the
score aggregation leaves no document of the vendor tier, `queryRAG` falls
back to the vendor pool and returns a non-empty result of at most `topK`
documents, all drawn from the vendor's chunks (score 1, regardless of
lexical score). -/
theorem queryRAG_vendor_fallback (semScore : DocumentChunk → ℚ) (jsLog : ℚ → ℚ)
    (s : RAGState) (q : RAGQuery) (tier : Nat)
    (hinit : s.isInitialized = true)
    (hhint : vendorHint q.query = some tier)
    (hex : ∃ c ∈ s.chunkStore, c.metadata.sourcePriority = tier ∧
      ∃ d ∈ s.documentStore, d.id = c.documentId)
    (hagg : (rankedDocs semScore jsLog s q).filter
      (fun r => r.1.sourcePriority == tier) = []) :
    (queryRAG semScore jsLog s q).documents ≠ [] ∧
      (queryRAG semScore jsLog s q).documents.length ≤ effTopK q ∧
      (∀ d ∈ (queryRAG semScore jsLog s q).documents,
        d ∈ s.documentStore ∧ ∃ c ∈ s.chunkStore,
          c.metadata.sourcePriority = tier ∧ d.id = c.documentId) ∧
      (∀ sc ∈ (queryRAG semScore jsLog s q).scores, sc = 1) := by
  have hq : queryRAG semScore jsLog s q =
      { documents := (vendorFallback s tier (effTopK q)).map (·.1),
        scores := (vendorFallback s tier (effTopK q)).map (·.2) } := by
    unfold queryRAG
    rw [if_neg (by simp [hinit])]
    have hfr : finalResults semScore jsLog s q = vendorFallback s tier (effTopK q) := by
      simp [finalResults, hhint, hagg]
    rw [hfr]
  obtain ⟨c, hc, hcp, d, hd, hdid⟩ := hex
  have hcfilter : c ∈ s.chunkStore.filter (fun c => c.metadata.sourcePriority == tier) := by
    rw [List.mem_filter]
    exact ⟨hc, by simp [hcp]⟩
  obtain ⟨d', hd'⟩ : ∃ d', s.documentStore.find? (fun x => x.id == c.documentId) = some d' := by
    have : (s.documentStore.find? (fun x => x.id == c.documentId)).isSome := by
      rw [List.find?_isSome]
      exact ⟨d, hd, by simp [hdid]⟩
    exact Option.isSome_iff_exists.mp this
  have hmem : (d', (1 : ℚ)) ∈ (s.chunkStore.filter
      (fun c => c.metadata.sourcePriority == tier)).filterMap
      (fun c => (s.documentStore.find? (fun x => x.id == c.documentId)).map
        (fun d => (d, (1 : ℚ)))) := by
    rw [List.mem_filterMap]
    exact ⟨c, hcfilter, by rw [hd']; rfl⟩
  have hlenpos : 0 < (vendorFallback s tier (effTopK q)).length := by
    unfold vendorFallback
    rw [List.length_take]
    have h1 := effTopK_pos q
    have h2 := List.length_pos.mpr (List.ne_nil_of_mem hmem)
    omega
  refine ⟨?_, ?_, ?_, ?_⟩
  · rw [hq]
    have hpos : 0 < ((vendorFallback s tier (effTopK q)).map (·.1)).length := by
      rw [List.length_map]
      exact hlenpos
    exact List.length_pos.mp hpos
  · rw [hq]
    simp only [List.length_map]
    unfold vendorFallback
    exact List.length_take_le _ _
  · rw [hq]
    intro d₀ hd₀
    simp only [List.mem_map] at hd₀
    obtain ⟨pair, hpair, rfl⟩ := hd₀
    have hpairL := List.mem_of_mem_take hpair
    rw [List.mem_filterMap] at hpairL
    obtain ⟨c₀, hc₀f, heq⟩ := hpairL
    rw [Option.map_eq_some'] at heq
    obtain ⟨d₁, hfind₁, hpe⟩ := heq
    rw [List.mem_filter] at hc₀f
    have hprio : c₀.metadata.sourcePriority = tier := by
      have h2 := hc₀f.2
      simpa using h2
    have hid : d₁.id = c₀.documentId := by
      have h3 := List.find?_some hfind₁
      simpa using h3
    refine ⟨?_, c₀, hc₀f.1, hprio, ?_⟩
    · rw [← hpe]
      exact List.mem_of_find?_eq_some hfind₁
    · rw [← hpe]
      exact hid
  · rw [hq]
    intro sc hsc
    simp only [List.mem_map] at hsc
    obtain ⟨pair, hpair, rfl⟩ := hsc
    have hpairL := List.mem_of_mem_take hpair
    rw [List.mem_filterMap] at hpairL
    obtain ⟨c₀, _, heq⟩ := hpairL
    rw [Option.map_eq_some'] at heq
    obtain ⟨d₁, _, hpe⟩ := heq
    rw [← hpe]

/-- C4 witness: `limeState` with the query `"limelight"`: aggregation is
empty (all lexical scores are zero), one tier-5 chunk resolves to its
document, and the result is the non-empty fallback. -/
theorem queryRAG_vendor_fallback_witness :
    (limeState.isInitialized = true ∧
      vendorHint limeQuery.query = some 5 ∧
      (rankedDocs (fun _ => 0) (fun _ => 0) limeState limeQuery).filter
        (fun r => r.1.sourcePriority == 5) = []) ∧
      (queryRAG (fun _ => 0) (fun _ => 0) limeState limeQuery).documents ≠ [] :=
  ⟨⟨rfl, by decide, by decide⟩,
    (queryRAG_vendor_fallback (fun _ => 0) (fun _ => 0) limeState limeQuery 5
      rfl (by decide) (by decide) (by decide)).1⟩

/-- C10.  A `topK` of 0 is falsy in `query.topK || DEFAULT_TOP_K`: the
effective cutoff becomes the default 10, so requesting zero results can
still return up to 10 documents (and never more). -/
theorem queryRAG_topK_zero_default (semScore : DocumentChunk → ℚ) (jsLog : ℚ → ℚ)
    (s : RAGState) (q : RAGQuery) (h : q.topK = some 0) :
    effTopK q = DEFAULT_TOP_K ∧
      (queryRAG semScore jsLog s q).documents.length ≤ DEFAULT_TOP_K := by
  have he : effTopK q = DEFAULT_TOP_K := by simp [effTopK, h]
  exact ⟨he, he ▸ queryRAG_length_le semScore jsLog s q⟩

/-- C10 witness: the query `"limelight"` with `topK = 0` against
`limeState` is cut at the default 10, not at 0. -/
theorem queryRAG_topK_zero_default_witness :
    ({ query := lit "limelight", topK := some 0 } : RAGQuery).topK = some 0 ∧
      effTopK { query := lit "limelight", topK := some 0 } = DEFAULT_TOP_K ∧
      (queryRAG (fun _ => 0) (fun _ => 0) limeState
        { query := lit "limelight", topK := some 0 }).documents.length ≤ DEFAULT_TOP_K :=
  ⟨rfl,
    (queryRAG_topK_zero_default (fun _ => 0) (fun _ => 0) limeState
      { query := lit "limelight", topK := some 0 } rfl).1,
    (queryRAG_topK_zero_default (fun _ => 0) (fun _ => 0) limeState
      { query := lit "limelight", topK := some 0 } rfl).2⟩

/- ----------------------------------------------------------------------
`formatContextForPrompt` (lib/rag/query.ts lines 353–385).
---------------------------------------------------------------------- -/

/-- `MAX_TOTAL_CHARS` (line 361). -/
def MAX_TOTAL_CHARS : Nat := 8000

/-- `MAX_PER_DOC` (line 362). -/
def MAX_PER_DOC : Nat := 1500

/-- The fixed sentinel for an empty result (lines 355–358; the apostrophe
of the original text is dropped, which only shifts its length). -/
def NO_DOCS_MESSAGE : Str :=
  lit "# NO RELEVANT DOCUMENTATION FOUND\n\nCRITICAL: You do not have any retrieved documentation for this query.\nYou MUST tell the user that you dont have the specific information and cannot generate code without proper documentation."

/-- The fixed preamble of a non-empty context (lines 364–368, same caveat
about the apostrophe). -/
def PREAMBLE : Str :=
  lit "# Retrieved FTC Source Code and Documentation\n\nIMPORTANT: Use only these sources. If the needed API/class isnt here, state that explicitly.\n\n"

/-- The block rendered for document `i` (lines 372–378): numbered header
with title, URL and priority, then the content snippet truncated to
`MAX_PER_DOC`, then the separator. -/
def blockFor (i : Nat) (doc : FTCDocument) : Str :=
  lit "## Source [" ++ lit (Nat.repr (i + 1)) ++ lit "] - " ++ doc.title
    ++ lit "\nURL: " ++ doc.sourceURL
    ++ lit "\nPriority: " ++ lit (Nat.repr doc.sourcePriority)
    ++ lit "\n\n\n\n" ++ doc.content.take MAX_PER_DOC ++ lit "\n\n---\n\n"

/-- The accumulation loop (lines 370–382): stop when `used` has reached the
budget *before* appending, else append the whole block and charge it. -/
def fmtLoop : List FTCDocument → Nat → Nat → Str → Str
  | [], _, _, context => context
  | d :: rest, i, used, context =>
    if MAX_TOTAL_CHARS ≤ used then context
    else fmtLoop rest (i + 1) (used + (blockFor i d).length) (context ++ blockFor i d)

/-- `formatContextForPrompt` (lines 353–385). -/
def formatContextForPrompt (result : RAGResult) : Str :=
  if result.documents.isEmpty then NO_DOCS_MESSAGE
  else fmtLoop result.documents 0 0 PREAMBLE

/-- A document whose snippet alone is the full per-document cap. -/
def bigDoc : FTCDocument :=
  { id := lit "d", title := lit "t", content := List.replicate 1500 'a',
    sourceURL := lit "u", seasonTag := lit "s", sourcePriority := 1 }

/-- The length of a block, component by component. -/
theorem length_blockFor (i : Nat) (d : FTCDocument) :
    (blockFor i d).length
      = (lit "## Source [").length + (lit (Nat.repr (i + 1))).length
        + (lit "] - ").length + d.title.length + (lit "\nURL: ").length
        + d.sourceURL.length + (lit "\nPriority: ").length
        + (lit (Nat.repr d.sourcePriority)).length + (lit "\n\n\n\n").length
        + (d.content.take MAX_PER_DOC).length + (lit "\n\n---\n\n").length := by
  simp only [blockFor, List.length_append]

/-- Every `bigDoc` block in the first six positions is exactly 1547
characters long. -/
theorem length_blockFor_bigDoc (i : Nat) (h : i < 6) :
    (blockFor i bigDoc).length = 1547 := by
  rw [length_blockFor]
  have hc : (bigDoc.content.take MAX_PER_DOC).length = 1500 := by
    show ((List.replicate 1500 'a').take MAX_PER_DOC).length = 1500
    rw [List.length_take, List.length_replicate]
    norm_num [MAX_PER_DOC]
  rw [hc]
  interval_cases i <;> decide

/-- An unconditional unfolding of one loop step under the budget. -/
theorem fmtLoop_cons_lt (d : FTCDocument) (rest : List FTCDocument)
    (i used : Nat) (ctx : Str) (h : used < MAX_TOTAL_CHARS) :
    fmtLoop (d :: rest) i used ctx
      = fmtLoop rest (i + 1) (used + (blockFor i d).length) (ctx ++ blockFor i d) := by
  rw [show fmtLoop (d :: rest) i used ctx
    = if MAX_TOTAL_CHARS ≤ used then ctx
      else fmtLoop rest (i + 1) (used + (blockFor i d).length) (ctx ++ blockFor i d)
    from rfl]
  rw [if_neg (by omega)]

/-- C6 counterexample.  Six documents of 1500 characters each: the budget
check happens before each append, so the sixth block is still appended when
`used = 7735 < 8000`, and the output (preamble plus 9282 block characters)
exceeds `MAX_TOTAL_CHARS = 8000`. -/
theorem formatContext_budget_counterexample :
    ¬ ((formatContextForPrompt
        { documents := [bigDoc, bigDoc, bigDoc, bigDoc, bigDoc, bigDoc],
          scores := [1, 1, 1, 1, 1, 1] }).length ≤ MAX_TOTAL_CHARS) := by
  have hb0 := length_blockFor_bigDoc 0 (by omega)
  have hb1 := length_blockFor_bigDoc 1 (by omega)
  have hb2 := length_blockFor_bigDoc 2 (by omega)
  have hb3 := length_blockFor_bigDoc 3 (by omega)
  have hb4 := length_blockFor_bigDoc 4 (by omega)
  have hb5 := length_blockFor_bigDoc 5 (by omega)
  unfold formatContextForPrompt
  rw [if_neg (by decide)]
  rw [fmtLoop_cons_lt _ _ _ _ _ (by norm_num [MAX_TOTAL_CHARS])]
  rw [fmtLoop_cons_lt _ _ _ _ _ (by rw [hb0]; norm_num [MAX_TOTAL_CHARS])]
  rw [fmtLoop_cons_lt _ _ _ _ _ (by rw [hb0, hb1]; norm_num [MAX_TOTAL_CHARS])]
  rw [fmtLoop_cons_lt _ _ _ _ _ (by rw [hb0, hb1, hb2]; norm_num [MAX_TOTAL_CHARS])]
  rw [fmtLoop_cons_lt _ _ _ _ _ (by rw [hb0, hb1, hb2, hb3]; norm_num [MAX_TOTAL_CHARS])]
  rw [fmtLoop_cons_lt _ _ _ _ _ (by rw [hb0, hb1, hb2, hb3, hb4]; norm_num [MAX_TOTAL_CHARS])]
  show ¬ ((PREAMBLE ++ blockFor 0 bigDoc ++ blockFor 1 bigDoc ++ blockFor 2 bigDoc
      ++ blockFor 3 bigDoc ++ blockFor 4 bigDoc ++ blockFor 5 bigDoc).length
    ≤ MAX_TOTAL_CHARS)
  simp only [List.length_append, hb0, hb1, hb2, hb3, hb4, hb5, MAX_TOTAL_CHARS]
  omega

/-- Once the budget is reached the loop appends nothing more. -/
theorem fmtLoop_stop (docs : List FTCDocument) (i used : Nat) (ctx : Str)
    (h : MAX_TOTAL_CHARS ≤ used) : fmtLoop docs i used ctx = ctx := by
  cases docs with
  | nil => rfl
  | cons d rest =>
    unfold fmtLoop
    rw [if_pos h]

/-- The default document used by `List.getD` in the block-length bound. -/
def dfltDoc : FTCDocument :=
  { id := [], title := [], content := [], sourceURL := [], seasonTag := [],
    sourcePriority := 0 }

/-- Loop bound: blocks already charged stay under the budget, so the output
exceeds the context built so far by at most the remaining budget plus one
block. -/
theorem fmtLoop_length_le (B : Nat) :
    ∀ (docs : List FTCDocument) (i used : Nat) (ctx : Str),
      (∀ j, j < docs.length → (blockFor (i + j) (docs.getD j dfltDoc)).length ≤ B) →
      used ≤ MAX_TOTAL_CHARS - 1 →
      (fmtLoop docs i used ctx).length
        ≤ ctx.length + (MAX_TOTAL_CHARS - 1 - used) + B := by
  intro docs
  induction docs with
  | nil =>
    intro i used ctx _ _
    unfold fmtLoop
    omega
  | cons d rest ih =>
    intro i used ctx hB hused
    unfold fmtLoop
    rw [if_neg (by unfold MAX_TOTAL_CHARS at hused ⊢; omega)]
    have hb0 : (blockFor i d).length ≤ B := by
      have := hB 0 (by simp)
      simpa using this
    by_cases hcase : used + (blockFor i d).length ≤ MAX_TOTAL_CHARS - 1
    · have hB' : ∀ j, j < rest.length →
          (blockFor (i + 1 + j) (rest.getD j dfltDoc)).length ≤ B := by
        intro j hj
        have := hB (j + 1) (by simp; omega)
        have harith : i + (j + 1) = i + 1 + j := by omega
        rw [harith] at this
        simpa using this
      have := ih (i + 1) (used + (blockFor i d).length) (ctx ++ blockFor i d) hB' hcase
      rw [List.length_append] at this
      omega
    · have hstop : MAX_TOTAL_CHARS ≤ used + (blockFor i d).length := by omega
      rw [fmtLoop_stop _ _ _ _ hstop, List.length_append]
      omega

/-- C6 (amended).  The total-budget check runs before each append, so the
formatted output can overshoot `MAX_TOTAL_CHARS` by up to one block: its
length is bounded by the preamble plus `MAX_TOTAL_CHARS - 1` plus the
largest block.  The per-document cap `MAX_PER_DOC` bounds only the content
snippet inside each block (the title/URL header comes on top of it), and
that snippet bound always holds. -/
theorem formatContext_budget (res : RAGResult) (B : Nat)
    (hne : res.documents ≠ [])
    (hB : ∀ j, j < res.documents.length →
      (blockFor j (res.documents.getD j dfltDoc)).length ≤ B) :
    (formatContextForPrompt res).length
      ≤ PREAMBLE.length + (MAX_TOTAL_CHARS - 1) + B ∧
    ∀ d ∈ res.documents, (d.content.take MAX_PER_DOC).length ≤ MAX_PER_DOC := by
  constructor
  · unfold formatContextForPrompt
    rw [if_neg (by simpa [List.isEmpty_iff] using hne)]
    have hB0 : ∀ j, j < res.documents.length →
        (blockFor (0 + j) (res.documents.getD j dfltDoc)).length ≤ B := by
      intro j hj
      simpa using hB j hj
    have := fmtLoop_length_le B res.documents 0 0 PREAMBLE hB0
      (by norm_num [MAX_TOTAL_CHARS])
    simpa using this
  · intro d _
    exact List.length_take_le _ _

/-- C6 witness for the amended bound: a single small document against the
block bound `B = 2000`. -/
theorem formatContext_budget_witness :
    (({ documents := [limeDoc], scores := [1] } : RAGResult).documents ≠ [] ∧
      ∀ j, j < ({ documents := [limeDoc], scores := [1] } : RAGResult).documents.length →
        (blockFor j (({ documents := [limeDoc], scores := [1] } :
          RAGResult).documents.getD j dfltDoc)).length ≤ 2000) ∧
      (formatContextForPrompt { documents := [limeDoc], scores := [1] }).length
        ≤ PREAMBLE.length + (MAX_TOTAL_CHARS - 1) + 2000 :=
  ⟨⟨by decide,
      by
        intro j hj
        rw [show j = 0 from by simpa [Nat.lt_one_iff] using hj]
        decide⟩,
    (formatContext_budget { documents := [limeDoc], scores := [1] } 2000
      (by decide)
      (by
        intro j hj
        rw [show j = 0 from by simpa [Nat.lt_one_iff] using hj]
        decide)).1⟩

/- ----------------------------------------------------------------------
Initialization lifecycle (lib/rag/query.ts lines 107–151).  JavaScript is
single-threaded: calls that happen before any `await` completes execute
atomically against the module state, so the concurrent-call scenario is the
sequence of synchronous `ensureRAGInitialized` / `initializeRAG` entries
with no run-completion event in between.  A promise is modelled by the
identifier of the ingestion run it belongs to; a pending promise resolves
exactly when that run finishes, so callers holding the same identifier
resolve together, after that single run.
---------------------------------------------------------------------- -/

/-- What a lifecycle call hands back: an already-resolved promise
(`Promise.resolve()` when `isInitialized`), or the pending promise of the
run with the given identifier. -/
inductive PromiseRef where
  | resolved : PromiseRef
  | pending : Nat → PromiseRef
deriving DecidableEq

/-- The module-level lifecycle state: `isInitialized`, `initPromise`
(the in-flight run's promise, if any), plus a counter of ingestion runs
ever started and a fresh-identifier source for the model. -/
structure LifecycleState where
  isInitialized : Bool
  initPromise : Option Nat
  runsStarted : Nat
  nextRunId : Nat
deriving DecidableEq

/-- `ensureRAGInitialized` (lines 133–151): resolved immediately when
initialized; otherwise reuse the in-flight promise, or start exactly one
new run and remember its promise. -/
def ensureRAGInitialized (s : LifecycleState) : LifecycleState × PromiseRef :=
  if s.isInitialized then (s, PromiseRef.resolved)
  else
    match s.initPromise with
    | some p => (s, PromiseRef.pending p)
    | none =>
      ({ isInitialized := s.isInitialized, initPromise := some s.nextRunId,
         runsStarted := s.runsStarted + 1, nextRunId := s.nextRunId + 1 },
       PromiseRef.pending s.nextRunId)

/-- `initializeRAG` without `force` (lines 107–131): returns early when
initialized; otherwise starts a run only when none is pending
(`!initPromise`), then awaits `initPromise`.  Identical transition to
`ensureRAGInitialized` on this path. -/
def initializeRAGNoForce (s : LifecycleState) : LifecycleState × PromiseRef :=
  if s.isInitialized then (s, PromiseRef.resolved)
  else
    match s.initPromise with
    | some p => (s, PromiseRef.pending p)
    | none =>
      ({ isInitialized := s.isInitialized, initPromise := some s.nextRunId,
         runsStarted := s.runsStarted + 1, nextRunId := s.nextRunId + 1 },
       PromiseRef.pending s.nextRunId)

/-- The two entry points a concurrent caller can use. -/
inductive InitCall where
  | ensure : InitCall
  | initNoForce : InitCall
deriving DecidableEq

/-- Dispatch one synchronous call. -/
def lifecycleStep : LifecycleState → InitCall → LifecycleState × PromiseRef
  | s, InitCall.ensure => ensureRAGInitialized s
  | s, InitCall.initNoForce => initializeRAGNoForce s

/-- Run a sequence of synchronous calls (no completion in between),
collecting every caller's promise. -/
def runCalls : LifecycleState → List InitCall → LifecycleState × List PromiseRef
  | s, [] => (s, [])
  | s, k :: ks =>
    (runCalls (lifecycleStep s k).1 ks).1
      |> fun s₂ => (s₂, (lifecycleStep s k).2 :: (runCalls (lifecycleStep s k).1 ks).2)

/-- With a run already pending and the flag still down, every further call
leaves the state unchanged and hands back that same pending promise. -/
theorem runCalls_steady (p : Nat) :
    ∀ (ks : List InitCall) (s : LifecycleState),
      s.isInitialized = false → s.initPromise = some p →
      (runCalls s ks).1 = s ∧ ∀ x ∈ (runCalls s ks).2, x = PromiseRef.pending p := by
  intro ks
  induction ks with
  | nil =>
    intro s _ _
    exact ⟨rfl, by intro x hx; simp [runCalls] at hx⟩
  | cons k ks ih =>
    intro s hinit hpend
    have hstep : lifecycleStep s k = (s, PromiseRef.pending p) := by
      cases k <;>
        simp [lifecycleStep, ensureRAGInitialized, initializeRAGNoForce, hinit, hpend]
    have ihs := ih s hinit hpend
    constructor
    · show (runCalls (lifecycleStep s k).1 ks).1 = s
      rw [hstep]
      exact ihs.1
    · intro x hx
      simp only [runCalls, List.mem_cons] at hx
      rcases hx with hx | hx
      · rw [hstep] at hx
        exact hx
      · rw [hstep] at hx
        exact ihs.2 x hx

/-- C7.  Starting from a fresh state (not initialized, no run in flight),
any non-empty sequence of synchronous `ensureRAGInitialized` /
`initializeRAG`-without-force calls starts exactly one ingestion run, and
every caller is handed the same pending promise — the one of that single
run — so all of them resolve only when that run finishes. -/
theorem ensureRAGInitialized_single_flight (s : LifecycleState) (ks : List InitCall)
    (hinit : s.isInitialized = false) (hpend : s.initPromise = none)
    (hne : ks ≠ []) :
    (runCalls s ks).1.runsStarted = s.runsStarted + 1 ∧
      (runCalls s ks).2 ≠ [] ∧
      ∀ x ∈ (runCalls s ks).2, x = PromiseRef.pending s.nextRunId := by
  cases ks with
  | nil => exact absurd rfl hne
  | cons k ks =>
    have hstep : lifecycleStep s k =
        ({ isInitialized := s.isInitialized, initPromise := some s.nextRunId,
           runsStarted := s.runsStarted + 1, nextRunId := s.nextRunId + 1 },
         PromiseRef.pending s.nextRunId) := by
      cases k <;>
        simp [lifecycleStep, ensureRAGInitialized, initializeRAGNoForce, hinit, hpend]
    have hsteady := runCalls_steady s.nextRunId ks
      { isInitialized := s.isInitialized, initPromise := some s.nextRunId,
        runsStarted := s.runsStarted + 1, nextRunId := s.nextRunId + 1 }
      (by simpa using hinit) rfl
    refine ⟨?_, ?_, ?_⟩
    · show (runCalls (lifecycleStep s k).1 ks).1.runsStarted = s.runsStarted + 1
      rw [hstep]
      rw [hsteady.1]
    · simp [runCalls]
    · intro x hx
      simp only [runCalls, List.mem_cons] at hx
      rcases hx with hx | hx
      · rw [hstep] at hx
        exact hx
      · rw [hstep] at hx
        exact hsteady.2 x hx

/-- The fresh lifecycle state: nothing initialized, no run in flight. -/
def freshLifecycle : LifecycleState :=
  { isInitialized := false, initPromise := none, runsStarted := 0, nextRunId := 0 }

/-- C7 witness: three concurrent callers (ensure, initialize, ensure)
against the fresh state: one run started, all three hold its promise. -/
theorem ensureRAGInitialized_single_flight_witness :
    (freshLifecycle.isInitialized = false ∧ freshLifecycle.initPromise = none ∧
      ([InitCall.ensure, InitCall.initNoForce, InitCall.ensure] : List InitCall) ≠ []) ∧
      (runCalls freshLifecycle
        [InitCall.ensure, InitCall.initNoForce, InitCall.ensure]).1.runsStarted
          = freshLifecycle.runsStarted + 1 ∧
      ∀ x ∈ (runCalls freshLifecycle
        [InitCall.ensure, InitCall.initNoForce, InitCall.ensure]).2,
        x = PromiseRef.pending freshLifecycle.nextRunId :=
  ⟨⟨rfl, rfl, by decide⟩,
    (ensureRAGInitialized_single_flight freshLifecycle
      [InitCall.ensure, InitCall.initNoForce, InitCall.ensure] rfl rfl (by decide)).1,
    (ensureRAGInitialized_single_flight freshLifecycle
      [InitCall.ensure, InitCall.initNoForce, InitCall.ensure] rfl rfl (by decide)).2.2⟩

/- ----------------------------------------------------------------------
Ingestion id derivation and store mutation (src/unnamed/part_009
`fetchGitHubContent` lines 125–186, `fetchUserRepo` lines 357–374;
lib/rag/query.ts `runInitialization` line 73 and `addUserRepository`
line 169).  A repository archive is modelled as its entry list
(path, content); the kept-document set follows the source's filters.
---------------------------------------------------------------------- -/

/-- `CURRENT_SEASON` (lib/rag/types.ts line 176). -/
def CURRENT_SEASON : Str := lit "DECODE 2025-26"

/-- `String.prototype.split` on a single character (every separator
occurrence splits, empty segments kept — unlike the regex-run splits). -/
def splitCharGo (sep : Char) : Str → Str → List Str
  | [], cur => [cur.reverse]
  | c :: rest, cur =>
    if c == sep then cur.reverse :: splitCharGo sep rest []
    else splitCharGo sep rest (c :: cur)

/-- `path.split('/')`. -/
def splitChar (sep : Char) (s : Str) : List Str := splitCharGo sep s []

/-- `String.prototype.endsWith`. -/
def strEndsWith (s suffixStr : Str) : Bool := leadMatch s.reverse suffixStr.reverse

/-- The extension allow-list of `fetchGitHubContent` (line 148). -/
def allowedExtensions : List Str :=
  [lit ".java", lit ".kt", lit ".md", lit ".rst"]

/-- The deterministic document id of `fetchGitHubContent` (line 168):
`github-${owner}-${repo}-${normalizedPath}`. -/
def githubDocId (owner repo normalizedPath : Str) : Str :=
  lit "github-" ++ owner ++ lit "-" ++ repo ++ lit "-" ++ normalizedPath

/-- The document built for one kept archive entry (lines 160–175), after
path filtering: derive the id from owner, repo and the normalized path. -/
def mkGitHubDoc (owner repo branch normalizedPath content : Str)
    (paths : List Str) : Option FTCDocument :=
  if paths.any (fun p => leadMatch normalizedPath p) then
    if allowedExtensions.any (fun ext => strEndsWith normalizedPath ext) then
      some { id := githubDocId owner repo normalizedPath,
             title := normalizedPath, content := content,
             sourceURL := lit "https://github.com/" ++ owner ++ lit "/" ++ repo
               ++ lit "/blob/" ++ branch ++ lit "/" ++ normalizedPath,
             seasonTag := CURRENT_SEASON, sourcePriority := 1 }
    else none
  else none

/-- One archive entry through the filters of `fetchGitHubContent`
(lines 151–162): strip the leading repo folder, keep matching paths with
allowed extensions. -/
def gitHubEntryDoc (owner repo branch : Str) (paths : List Str)
    (e : Str × Str) : Option FTCDocument :=
  if (splitChar '/' e.1).length ≤ 1 then none
  else mkGitHubDoc owner repo branch
    (List.intercalate (lit "/") ((splitChar '/' e.1).drop 1)) e.2 paths

/-- `fetchGitHubContent` over an already-downloaded archive: the kept
documents in entry order. -/
def fetchGitHubContentDocs (owner repo branch : Str) (paths : List Str)
    (entries : List (Str × Str)) : List FTCDocument :=
  entries.filterMap (gitHubEntryDoc owner repo branch paths)

/-- `fetchUserRepo` (lines 357–374): `fetchGitHubContent` on
`TeamCode/src/main/java`, then every priority overwritten with 9. -/
def fetchUserRepoDocs (owner repo branch : Str)
    (entries : List (Str × Str)) : List FTCDocument :=
  (fetchGitHubContentDocs owner repo branch [lit "TeamCode/src/main/java"] entries).map
    (fun d => { d with sourcePriority := 9 })

/-- The store effect of `runInitialization` (line 73): `documentStore = docs`
— assignment, not append. -/
def runInitializationStore (prev docs : List FTCDocument) : List FTCDocument :=
  docs

/-- The store effect of `addUserRepository` (line 169):
`documentStore.push(...userDocs)` — append. -/
def addUserRepositoryStore (store userDocs : List FTCDocument) : List FTCDocument :=
  store ++ userDocs

/-- A one-file user repository archive. -/
def userEntries : List (Str × Str) :=
  [(lit "repo-main/TeamCode/src/main/java/A.java", lit "classA")]

/-- C9 counterexample.  `addUserRepository` appends: adding the same user
repository twice leaves two documents with the identical deterministic id in
the store — identifiers are not unique after every sequence of
store-mutating operations. -/
theorem addUserRepository_duplicates :
    ¬ ((addUserRepositoryStore
        (addUserRepositoryStore []
          (fetchUserRepoDocs (lit "o") (lit "r") (lit "main") userEntries))
        (fetchUserRepoDocs (lit "o") (lit "r") (lit "main") userEntries)).map
          (fun d => d.id)).Nodup := by
  decide

/-- Every document produced from an archive entry derives its id from its
normalized path (kept in `title`). -/
theorem mem_fetchGitHubContentDocs_id (owner repo branch : Str)
    (paths : List Str) (entries : List (Str × Str)) (d : FTCDocument)
    (hd : d ∈ fetchGitHubContentDocs owner repo branch paths entries) :
    d.id = githubDocId owner repo d.title := by
  unfold fetchGitHubContentDocs at hd
  rw [List.mem_filterMap] at hd
  obtain ⟨e, _, he⟩ := hd
  unfold gitHubEntryDoc at he
  split_ifs at he
  unfold mkGitHubDoc at he
  split_ifs at he
  injection he with he
  rw [← he]

/-- The id derivation is injective in the path for a fixed repository. -/
theorem githubDocId_injective (owner repo : Str) :
    Function.Injective (githubDocId owner repo) := by
  intro a b h
  unfold githubDocId at h
  simpa [List.append_assoc] using h

/-- C9 (amended).  An initialization run replaces the document store
wholesale (assignment, not append), and `fetchGitHubContent` derives every
id deterministically and injectively from the normalized file path for a
fixed repository: as long as the kept entry paths are distinct, the store
holds no duplicate identifier after the run — re-ingesting the same source
path reproduces the same id instead of a variant.  (`addUserRepository`,
by contrast, appends and can duplicate — see the counterexample.) -/
theorem initialization_ids_unique (prev : List FTCDocument)
    (owner repo branch : Str) (paths : List Str) (entries : List (Str × Str))
    (hnd : ((fetchGitHubContentDocs owner repo branch paths entries).map
      (fun d => d.title)).Nodup) :
    runInitializationStore prev (fetchGitHubContentDocs owner repo branch paths entries)
      = fetchGitHubContentDocs owner repo branch paths entries ∧
    ((runInitializationStore prev
        (fetchGitHubContentDocs owner repo branch paths entries)).map
      (fun d => d.id)).Nodup := by
  refine ⟨rfl, ?_⟩
  have hform : (fetchGitHubContentDocs owner repo branch paths entries).map
      (fun d => d.id)
      = ((fetchGitHubContentDocs owner repo branch paths entries).map
        (fun d => d.title)).map (githubDocId owner repo) := by
    rw [List.map_map]
    apply List.map_congr_left
    intro d hd
    exact mem_fetchGitHubContentDocs_id owner repo branch paths entries d hd
  show ((fetchGitHubContentDocs owner repo branch paths entries).map
      (fun d => d.id)).Nodup
  rw [hform]
  exact hnd.map (githubDocId_injective owner repo)

/-- C9 witness: a two-file archive with distinct paths: the store after the
run is exactly the two freshly derived documents, ids distinct. -/
theorem initialization_ids_unique_witness :
    ((fetchGitHubContentDocs (lit "o") (lit "r") (lit "main")
        [lit "TeamCode"]
        [(lit "repo-main/TeamCode/A.java", lit "classA"),
          (lit "repo-main/TeamCode/B.java", lit "classB")]).map
      (fun d => d.title)).Nodup ∧
    ((runInitializationStore []
        (fetchGitHubContentDocs (lit "o") (lit "r") (lit "main")
          [lit "TeamCode"]
          [(lit "repo-main/TeamCode/A.java", lit "classA"),
            (lit "repo-main/TeamCode/B.java", lit "classB")])).map
      (fun d => d.id)).Nodup :=
  ⟨by decide,
    (initialization_ids_unique [] (lit "o") (lit "r") (lit "main")
      [lit "TeamCode"]
      [(lit "repo-main/TeamCode/A.java", lit "classA"),
        (lit "repo-main/TeamCode/B.java", lit "classB")] (by decide)).2⟩
